import Mathlib

/-!
Verification development for the `async-process` library
(`src/AsyncProcess/index.ts`, cited here as `src/unnamed/part_006`).

The embedding models:
* JavaScript values returned by jobs and thrown as errors (`JsValue`);
* the `deepMerge` accumulation used by `_execJobs` (the implementation of
  `deepMerge` lives in the external `@productive-codebases/toolbox` package,
  not in this repository, so it is modelled from the spec's description);
* the five function-slot maps (`jobs`, `onStartFns`, `onSuccessFns`,
  `onErrorFns`, `predicateFns`) as insertion-ordered association lists from
  registration names to insertion-ordered, reference-deduplicated lists of
  callable references (JS `Map` / `Set` iteration order);
* callables by reference identity: a callable is a natural number (its JS
  object identity), and environments (`JobEnv`, `PredEnv`, `ErrEnv`) give each
  reference its behaviour as a function of the observed instance state,
  returning `Except` to model throw/reject;
* the `AsyncProcess` instance state (`ProcState`) and the `start` algorithm
  with its try/catch/finally structure, producing both the updated state and a
  trace of callable invocations (`Event`), so that "callable f was invoked
  with argument e" is a provable statement;
* the static singleton registry (`Registry`, `getOrCreate`), with reference
  identity of instances modelled by creation indices.
-/

set_option autoImplicit false

namespace AsyncProcessModel

mutual

/-- JavaScript values, as returned by jobs and thrown as errors.  `obj` is a
plain mapping given by an insertion-ordered field list. -/
inductive JsValue where
  | null : JsValue
  | bool : Bool → JsValue
  | num : Int → JsValue
  | str : String → JsValue
  | obj : JsFields → JsValue

/-- The insertion-ordered fields of a plain object. -/
inductive JsFields where
  | nil : JsFields
  | cons : String → JsValue → JsFields → JsFields

end

/-- Lookup of a key in an object's field list (first match). -/
def lookupField : JsFields → String → Option JsValue
  | JsFields.nil, _ => none
  | JsFields.cons k v rest, key => if k = key then some v else lookupField rest key

/-- Removal of a key from an object's field list. -/
def removeField : JsFields → String → JsFields
  | JsFields.nil, _ => JsFields.nil
  | JsFields.cons k v rest, key =>
    if k = key then removeField rest key else JsFields.cons k v (removeField rest key)

mutual

/-- Modelled from the spec: binary deep merge.  The implementation of
`deepMerge` lives in the external `@productive-codebases/toolbox` package and
is not part of this repository; the spec describes its behaviour as:
plain-mapping results merge key-wise recursively, non-mapping results are
simply replaced by the later value. -/
def deepMerge : JsValue → JsValue → JsValue
  | JsValue.obj fa, JsValue.obj fb => JsValue.obj (mergeFields fa fb)
  | _, b => b

/-- Modelled from the spec: key-wise merge of two objects' field lists.  Keys
of the first object come first (their values deep-merged with the second
object's value when the key is shared); keys only present in the second
object are appended in their own order. -/
def mergeFields : JsFields → JsFields → JsFields
  | JsFields.nil, fb => fb
  | JsFields.cons k v rest, fb =>
    match lookupField fb k with
    | some w => JsFields.cons k (deepMerge v w) (mergeFields rest (removeField fb k))
    | none => JsFields.cons k v (mergeFields rest fb)

end

/-- The accumulation `_execJobs` performs: starting from `null`, deep-merge
every result in order (`results = deepMerge([results, await fn()])`). -/
def mergeAll (rs : List JsValue) : JsValue :=
  rs.foldl deepMerge JsValue.null

/-- A set of callables, identified by reference (JS `Set` iteration =
insertion order, deduplicated by reference). -/
abbrev FnSet := List Nat

/-- A function-slot map: registration name to callable set, in insertion
order (JS `Map` iteration order). -/
abbrev SlotMap := List (String × FnSet)

/-- JS `Set` construction from an array: add elements in order, skipping the
ones already present (deduplication by reference, first occurrence kept). -/
def dedupFnsGo : List Nat → List Nat → List Nat
  | [], _ => []
  | f :: rest, seen =>
    if seen.contains f then dedupFnsGo rest seen
    else f :: dedupFnsGo rest (seen ++ [f])

/-- JS `new Set(ensureArray(fns))`, as a deduplicated insertion-ordered
list. -/
def dedupFns (l : List Nat) : List Nat :=
  dedupFnsGo l []

/-- JS `Map.prototype.set`: replace the value in place when the key exists
(keeping its position in iteration order), otherwise append a new entry. -/
def mapSet : SlotMap → String → FnSet → SlotMap
  | [], key, v => [(key, v)]
  | (k0, v0) :: rest, key, v =>
    if k0 = key then (k0, v) :: rest else (k0, v0) :: mapSet rest key v

/-- The callables of a slot map, in slot-map iteration order then set
insertion order — the order `_execJobs`, `shouldStart` and
`_execAsyncErrorFns` iterate them. -/
def fnsList (m : SlotMap) : List Nat :=
  (m.map (fun kv => kv.2)).flatten

/-- The `debug` sub-object of `IAsyncProcessOptions`. -/
structure DebugOptions where
  logFunctionRegistrations : Bool
  logFunctionExecutions : Bool
deriving DecidableEq, Repr

/-- The options of an `AsyncProcess` instance. -/
structure IAsyncProcessOptions where
  deleteFunctionsWhenJobsStarted : Bool
  debug : DebugOptions
deriving DecidableEq, Repr

/-- The default options installed by the constructor. -/
def defaultOptions : IAsyncProcessOptions :=
  { deleteFunctionsWhenJobsStarted := false
    debug := { logFunctionRegistrations := false, logFunctionExecutions := false } }

/-- `Partial<IAsyncProcessOptions>`: every field optional, used by
`setOptions`' shallow spread merge. -/
structure PartialOptions where
  deleteFunctionsWhenJobsStarted : Option Bool
  debug : Option DebugOptions

/-- The state of one `AsyncProcess` instance: its immutable identifiers, its
options, the `_error` / `_result` slots (JS `null` is `JsValue.null`), the
five function-slot maps, and the open metadata bag used only by extensions. -/
structure ProcState where
  identifiers : String × Option String
  options : IAsyncProcessOptions
  error : JsValue
  result : JsValue
  jobs : SlotMap
  onStartFns : SlotMap
  onSuccessFns : SlotMap
  onErrorFns : SlotMap
  predicateFns : SlotMap
  metadata : List (String × JsValue)

/-- Behaviour of job / onStart / onSuccess callables: given the observed
instance state, either return a value or throw one. -/
abbrev JobEnv := Nat → ProcState → Except JsValue JsValue

/-- Behaviour of predicate callables: they receive the instance and resolve
to a boolean or throw. -/
abbrev PredEnv := Nat → ProcState → Except JsValue Bool

/-- Behaviour of onError callables: they receive the instance state and the
captured error value, and may themselves throw. -/
abbrev ErrEnv := Nat → ProcState → JsValue → Except JsValue JsValue

/-- One observable invocation: a callable called without argument, or an
onError callable called with the captured error. -/
inductive Event where
  | call : Nat → Event
  | callErr : Nat → JsValue → Event

/-- The loop body of `_execJobs`: run the callables in order, accumulating
`results = deepMerge([results, await fn()])`, stopping at the first throw. -/
def execJobsGo (env : JobEnv) (st : ProcState) :
    List Nat → JsValue → List Event → List Event × Except JsValue JsValue
  | [], acc, tr => (tr, Except.ok acc)
  | f :: rest, acc, tr =>
    match env f st with
    | Except.ok r => execJobsGo env st rest (deepMerge acc r) (tr ++ [Event.call f])
    | Except.error e => (tr ++ [Event.call f], Except.error e)

/-- `_execJobs`: iterate a slot map's callables in map-then-set insertion
order, deep-merging their results starting from `null`. -/
def execJobs (env : JobEnv) (st : ProcState) (m : SlotMap) :
    List Event × Except JsValue JsValue :=
  execJobsGo env st (fnsList m) JsValue.null []

/-- The loop body of `shouldStart`: evaluate predicates in order; the first
`false` short-circuits with `false`; a throw propagates. -/
def shouldStartGo (penv : PredEnv) (st : ProcState) :
    List Nat → List Event → List Event × Except JsValue Bool
  | [], tr => (tr, Except.ok true)
  | p :: rest, tr =>
    match penv p st with
    | Except.ok true => shouldStartGo penv st rest (tr ++ [Event.call p])
    | Except.ok false => (tr ++ [Event.call p], Except.ok false)
    | Except.error e => (tr ++ [Event.call p], Except.error e)

/-- `shouldStart`: all registered predicates, in slot-map then set insertion
order, must resolve to `true`. -/
def shouldStart (penv : PredEnv) (st : ProcState) :
    List Event × Except JsValue Bool :=
  shouldStartGo penv st (fnsList st.predicateFns) []

/-- The loop of `_execAsyncErrorFns`: call every onError callable with the
captured error, in order, stopping after a callable that itself throws (the
remaining callables of the broken promise chain never run).  Only the trace
is observable: the call is not awaited by `start`, so its outcome never
affects `start`'s own result. -/
def execAsyncErrorFnsGo (eenv : ErrEnv) (st : ProcState) (e : JsValue) :
    List Nat → List Event → List Event
  | [], tr => tr
  | f :: rest, tr =>
    match eenv f st e with
    | Except.ok _ => execAsyncErrorFnsGo eenv st e rest (tr ++ [Event.callErr f e])
    | Except.error _ => tr ++ [Event.callErr f e]

/-- `_execAsyncErrorFns` on a slot map. -/
def execAsyncErrorFns (eenv : ErrEnv) (st : ProcState) (e : JsValue) (m : SlotMap) :
    List Event :=
  execAsyncErrorFnsGo eenv st e (fnsList m) []

/-- `shouldDeleteFunctions`: when `deleteFunctionsWhenJobsStarted` is set,
replace all five slot maps by fresh empty maps; otherwise do nothing. -/
def shouldDeleteFunctions (s : ProcState) : ProcState :=
  if s.options.deleteFunctionsWhenJobsStarted then
    { s with jobs := [], onStartFns := [], onSuccessFns := [],
             onErrorFns := [], predicateFns := [] }
  else s

/-- `do(jobs, identifier = 'defaultJobs')`: store `identifier -> new
Set(ensureArray(jobs))` in the jobs slot map. -/
def doRegister (s : ProcState) (jobs : List Nat) (identifier : String) : ProcState :=
  { s with jobs := mapSet s.jobs identifier (dedupFns jobs) }

/-- `if(predicateFns, identifier = 'defaultPredicate')`. -/
def ifRegister (s : ProcState) (predicateFns : List Nat) (identifier : String) : ProcState :=
  { s with predicateFns := mapSet s.predicateFns identifier (dedupFns predicateFns) }

/-- `onStart(jobs, identifier = 'defaultOnStart')`. -/
def onStartRegister (s : ProcState) (jobs : List Nat) (identifier : String) : ProcState :=
  { s with onStartFns := mapSet s.onStartFns identifier (dedupFns jobs) }

/-- `onSuccess(jobs, identifier = 'defaultOnSuccess')`. -/
def onSuccessRegister (s : ProcState) (jobs : List Nat) (identifier : String) : ProcState :=
  { s with onSuccessFns := mapSet s.onSuccessFns identifier (dedupFns jobs) }

/-- `onError(jobs, identifier = 'defaultOnError')`. -/
def onErrorRegister (s : ProcState) (jobs : List Nat) (identifier : String) : ProcState :=
  { s with onErrorFns := mapSet s.onErrorFns identifier (dedupFns jobs) }

/-- `setOptions`: shallow spread `{ ...this._options, ...options }` — provided
fields override, missing fields keep their current values. -/
def setOptions (s : ProcState) (o : PartialOptions) : ProcState :=
  { s with options :=
    { deleteFunctionsWhenJobsStarted :=
        o.deleteFunctionsWhenJobsStarted.getD s.options.deleteFunctionsWhenJobsStarted
      debug := o.debug.getD s.options.debug } }

/-- The function-slot maps exposed by the `fns` getter, as consumed by
`compose`. -/
structure FnMaps where
  jobs : SlotMap
  onStartFns : SlotMap
  onSuccessFns : SlotMap
  onErrorFns : SlotMap
  predicateFns : SlotMap

/-- The per-role merge `compose` performs: `forEach` over the composed map's
entries, `Map.set`-ing each into the target map. -/
def mergeSlotMap (target src : SlotMap) : SlotMap :=
  src.foldl (fun acc kv => mapSet acc kv.1 kv.2) target

/-- `compose(asyncProcessComposer)`: merge the composer result's `jobs`,
`onStartFns`, `onSuccessFns` and `onErrorFns` maps entry-wise into this
instance (the source does not merge `predicateFns`).  The composer is
modelled by the `fns` maps of the instance it returns. -/
def compose (s : ProcState) (composer : ProcState → FnMaps) : ProcState :=
  let asyncProcessFns := composer s
  { s with
    jobs := mergeSlotMap s.jobs asyncProcessFns.jobs
    onStartFns := mergeSlotMap s.onStartFns asyncProcessFns.onStartFns
    onSuccessFns := mergeSlotMap s.onSuccessFns asyncProcessFns.onSuccessFns
    onErrorFns := mergeSlotMap s.onErrorFns asyncProcessFns.onErrorFns }

/-- The body of the running (non-skipped) path of `start`'s `try` block:
`onStartFns`, then `jobs` (whose merged results are assigned to `_result`),
then `onSuccessFns` (which observe the freshly assigned result).  Returns the
state reached, the trace so far, and the thrown value if a phase threw. -/
def runPath (env : JobEnv) (s0 : ProcState) (trp : List Event) :
    ProcState × List Event × Option JsValue :=
  match execJobs env s0 s0.onStartFns with
  | (tr1, Except.error e) => (s0, trp ++ tr1, some e)
  | (tr1, Except.ok _) =>
    match execJobs env s0 s0.jobs with
    | (tr2, Except.error e) => (s0, trp ++ tr1 ++ tr2, some e)
    | (tr2, Except.ok r) =>
      match execJobs env { s0 with result := r } s0.onSuccessFns with
      | (tr3, Except.error e) =>
        ({ s0 with result := r }, trp ++ tr1 ++ tr2 ++ tr3, some e)
      | (tr3, Except.ok _) =>
        ({ s0 with result := r }, trp ++ tr1 ++ tr2 ++ tr3, none)

/-- The `catch` / `finally` tail of `start`: on a throw, set `_error` to the
thrown value verbatim and `_result` to `null`, then fire the (un-awaited)
onError callables with the captured value; in all cases run
`shouldDeleteFunctions` as the guaranteed cleanup. -/
def tryCatch (eenv : ErrEnv) (step : ProcState × List Event × Option JsValue) :
    ProcState × List Event :=
  match step with
  | (s1, tr, none) => (shouldDeleteFunctions s1, tr)
  | (s1, tr, some e) =>
    (shouldDeleteFunctions { s1 with error := e, result := JsValue.null },
     tr ++ execAsyncErrorFns eenv { s1 with error := e, result := JsValue.null } e
       { s1 with error := e, result := JsValue.null }.onErrorFns)

/-- The `try` block of `start`, entered after `_error` has been reset: if the
predicate map is non-empty and `shouldStart` resolves `false`, run only the
onSuccess callables and assign their merged results to `_result`; otherwise
run the full path.  Returns the state reached, the trace, and the thrown
value when the block threw. -/
def startTryBlock (env : JobEnv) (penv : PredEnv) (s0 : ProcState) :
    ProcState × List Event × Option JsValue :=
  if s0.predicateFns.isEmpty then runPath env s0 []
  else
    match shouldStart penv s0 with
    | (trp, Except.ok true) => runPath env s0 trp
    | (trp, Except.ok false) =>
      match execJobs env s0 s0.onSuccessFns with
      | (tr, Except.ok r) => ({ s0 with result := r }, trp ++ tr, none)
      | (tr, Except.error e) => (s0, trp ++ tr, some e)
    | (trp, Except.error e) => (s0, trp, some e)

/-- The whole body of `start` after the `_error` reset: the `try` block
followed by the `catch` / `finally` tail. -/
def startAfterEntry (env : JobEnv) (penv : PredEnv) (eenv : ErrEnv)
    (s0 : ProcState) : ProcState × List Event :=
  tryCatch eenv (startTryBlock env penv s0)

/-- `start()`: reset `_error` to `null`, then run the try/catch/finally body.
Produces the final state (the resolved value is the instance itself) and the
trace of callable invocations. -/
def start (env : JobEnv) (penv : PredEnv) (eenv : ErrEnv) (s : ProcState) :
    ProcState × List Event :=
  startAfterEntry env penv eenv { s with error := JsValue.null }

/-- `computeIdentifiers`: the primary identifier, paired with the `/`-joined
falsy-filtered sub-identifiers (or `null` when none are supplied). -/
def computeIdentifiers (identifier : String) (subIdentifiers : Option (List String)) :
    String × Option String :=
  (identifier,
    match subIdentifiers with
    | some subs => some (String.intercalate ("/") (subs.filter (fun x => x ≠ "")))
    | none => none)

/-- The registry key `instance()` computes:
`computeIdentifiers(identifier, subIdentifiers ?? null).join('/')` — JS
`Array.prototype.join` renders `null` as the empty string. -/
def identKey (identifier : String) (subIdentifiers : Option (List String)) : String :=
  let ids := computeIdentifiers identifier subIdentifiers
  ids.1 ++ ("/") ++ (match ids.2 with | some x => x | none => "")

/-- The static `_instances` registry: stringified identifiers to instances.
Reference identity of instances is modelled by creation indices (`nextId`). -/
structure Registry where
  instances : List (String × Nat)
  nextId : Nat
deriving DecidableEq, Repr

/-- The empty registry (also the result of `clearInstances`). -/
def Registry.empty : Registry :=
  { instances := [], nextId := 0 }

/-- JS `Map.prototype.get` on the registry. -/
def lookupInstance : List (String × Nat) → String → Option Nat
  | [], _ => none
  | (k, v) :: rest, key => if k = key then some v else lookupInstance rest key

/-- `AsyncProcess.instance` (the registry's `getOrCreate`): return the
existing instance for the computed key, or create, store and return a fresh
one. -/
def getOrCreate (r : Registry) (identifier : String)
    (subIdentifiers : Option (List String)) : Registry × Nat :=
  let key := identKey identifier subIdentifiers
  match lookupInstance r.instances key with
  | some i => (r, i)
  | none =>
    ({ instances := r.instances ++ [(key, r.nextId)], nextId := r.nextId + 1 },
     r.nextId)

/-- `AsyncProcess.clearInstances`. -/
def clearInstances (_r : Registry) : Registry :=
  Registry.empty

/-- One core operation on an instance, for stating frame properties over
arbitrary operation sequences. -/
inductive CoreOp where
  | opStart : JobEnv → PredEnv → ErrEnv → CoreOp
  | opDo : List Nat → String → CoreOp
  | opIf : List Nat → String → CoreOp
  | opOnStart : List Nat → String → CoreOp
  | opOnSuccess : List Nat → String → CoreOp
  | opOnError : List Nat → String → CoreOp
  | opSetOptions : PartialOptions → CoreOp
  | opShouldDelete : CoreOp
  | opCompose : (ProcState → FnMaps) → CoreOp

/-- Apply one core operation to an instance state. -/
def applyOp (s : ProcState) : CoreOp → ProcState
  | CoreOp.opStart env penv eenv => (start env penv eenv s).1
  | CoreOp.opDo l n => doRegister s l n
  | CoreOp.opIf l n => ifRegister s l n
  | CoreOp.opOnStart l n => onStartRegister s l n
  | CoreOp.opOnSuccess l n => onSuccessRegister s l n
  | CoreOp.opOnError l n => onErrorRegister s l n
  | CoreOp.opSetOptions o => setOptions s o
  | CoreOp.opShouldDelete => shouldDeleteFunctions s
  | CoreOp.opCompose c => compose s c

/-- Apply a sequence of core operations in order. -/
def applyOps (s : ProcState) : List CoreOp → ProcState
  | [] => s
  | op :: rest => applyOps (applyOp s op) rest

/-! ### Concrete fixtures used by witnesses and counterexamples -/

/-- A freshly constructed instance with no registrations: the state
`AsyncProcess.instance('loadFoo')` yields before any builder call. -/
def emptyState : ProcState :=
  { identifiers := ("loadFoo", none)
    options := defaultOptions
    error := JsValue.null
    result := JsValue.null
    jobs := []
    onStartFns := []
    onSuccessFns := []
    onErrorFns := []
    predicateFns := []
    metadata := [] }

/-- The object literal `a: 1`. -/
def objA : JsValue :=
  JsValue.obj (JsFields.cons ("a") (JsValue.num 1) JsFields.nil)

/-- The object literal `b: 2`. -/
def objB : JsValue :=
  JsValue.obj (JsFields.cons ("b") (JsValue.num 2) JsFields.nil)

/-- The object literal `a: 1, b: 2`. -/
def objAB : JsValue :=
  JsValue.obj
    (JsFields.cons ("a") (JsValue.num 1)
      (JsFields.cons ("b") (JsValue.num 2) JsFields.nil))

/-- Concrete job behaviours: callable 0 returns `a: 1`, callable 1 returns
`b: 2`, callable 2 throws the string `boom`, every other callable returns
`null`. -/
def envJobs : JobEnv := fun f _ =>
  if f = 0 then Except.ok objA
  else if f = 1 then Except.ok objB
  else if f = 2 then Except.error (JsValue.str ("boom"))
  else Except.ok JsValue.null

/-- A job that reads the instance and returns the observed `result` —
`() => asyncProcess.result` — for callable 0; other callables return
`null`. -/
def envReflect : JobEnv := fun f st =>
  if f = 0 then Except.ok st.result else Except.ok JsValue.null

/-- Predicates that always resolve `true`. -/
def penvTrue : PredEnv := fun _ _ => Except.ok true

/-- Predicate behaviours: callable 10 resolves `true`, callable 11 resolves
`false`, everything else `true`. -/
def penvGate : PredEnv := fun p _ =>
  if p = 10 then Except.ok true
  else if p = 11 then Except.ok false
  else Except.ok true

/-- onError callables that observe the error and return `null`. -/
def eenvNoop : ErrEnv := fun _ _ _ => Except.ok JsValue.null

/-- An instance that finished an earlier `start()` with result `v` and has
one job (callable 0) registered. -/
def prevState (v : JsValue) : ProcState :=
  { emptyState with result := v, jobs := [(("defaultJobs"), [0])] }

/-- An instance with the two jobs of the aggregation example registered in
one `do()`. -/
def sJobsAB : ProcState :=
  { emptyState with jobs := [(("defaultJobs"), [0, 1])] }

/-- An instance with jobs A (callable 0, resolves), B (callable 2, rejects)
and C (callable 3, never reached), and an onError callable 9. -/
def sABC : ProcState :=
  { emptyState with
    jobs := [(("defaultJobs"), [0, 2, 3])]
    onErrorFns := [(("defaultOnError"), [9])] }

/-- An instance with predicates 10 (true) then 11 (false), a job, an onStart,
an onSuccess and an onError callable, and a left-over result `a: 1` from an
earlier run. -/
def sGate : ProcState :=
  { emptyState with
    result := objA
    predicateFns := [(("defaultPredicate"), [10, 11])]
    jobs := [(("defaultJobs"), [0])]
    onStartFns := [(("defaultOnStart"), [4])]
    onSuccessFns := [(("defaultOnSuccess"), [1])]
    onErrorFns := [(("defaultOnError"), [9])] }

/-- Options with `deleteFunctionsWhenJobsStarted` enabled. -/
def optDelete : IAsyncProcessOptions :=
  { deleteFunctionsWhenJobsStarted := true
    debug := { logFunctionRegistrations := false, logFunctionExecutions := false } }

/-- An instance with the delete-functions option enabled and a job and an
onSuccess callable registered. -/
def sDelTrue : ProcState :=
  { emptyState with
    options := optDelete
    jobs := [(("defaultJobs"), [0])]
    onSuccessFns := [(("defaultOnSuccess"), [1])] }

/-- An instance with the delete-functions option left at its default
(`false`) and an onSuccess callable registered. -/
def sDelFalse : ProcState :=
  { emptyState with onSuccessFns := [(("defaultOnSuccess"), [1])] }

/-! ### Basic lemmas about the merge accumulation -/

theorem deepMerge_null_left (b : JsValue) : deepMerge JsValue.null b = b := by
  cases b <;> rfl

theorem mergeAll_cons (r : JsValue) (rest : List JsValue) :
    mergeAll (r :: rest) = rest.foldl deepMerge r := by
  simp [mergeAll, deepMerge_null_left]

/-! ### Execution-loop lemmas -/

theorem execJobsGo_all_ok (env : JobEnv) (st : ProcState) :
    ∀ (l : List Nat) (acc : JsValue) (tr : List Event),
      (∀ f ∈ l, ∃ v, env f st = Except.ok v) →
      ∃ r, execJobsGo env st l acc tr = (tr ++ l.map Event.call, Except.ok r) := by
  intro l
  induction l with
  | nil =>
    intro acc tr _
    exact ⟨acc, by simp [execJobsGo]⟩
  | cons f rest ih =>
    intro acc tr h
    obtain ⟨v, hv⟩ := h f (List.mem_cons_self f rest)
    obtain ⟨r, hr⟩ :=
      ih (deepMerge acc v) (tr ++ [Event.call f])
        (fun g hg => h g (List.mem_cons_of_mem f hg))
    exact ⟨r, by simp [execJobsGo, hv, hr]⟩

theorem execJobsGo_returns (env : JobEnv) (st : ProcState) :
    ∀ (l : List Nat) (rs : List JsValue),
      List.Forall₂ (fun f r => env f st = Except.ok r) l rs →
      ∀ (acc : JsValue) (tr : List Event),
        execJobsGo env st l acc tr =
          (tr ++ l.map Event.call, Except.ok (rs.foldl deepMerge acc)) := by
  intro l rs h
  induction h with
  | nil =>
    intro acc tr
    simp [execJobsGo]
  | cons hfr _ ih =>
    intro acc tr
    simp [execJobsGo, hfr, ih]

theorem execJobsGo_throws (env : JobEnv) (st : ProcState) :
    ∀ (pre : List Nat) (fbad : Nat) (post : List Nat) (e : JsValue),
      (∀ f ∈ pre, ∃ v, env f st = Except.ok v) →
      env fbad st = Except.error e →
      ∀ (acc : JsValue) (tr : List Event),
        execJobsGo env st (pre ++ fbad :: post) acc tr =
          (tr ++ pre.map Event.call ++ [Event.call fbad], Except.error e) := by
  intro pre
  induction pre with
  | nil =>
    intro fbad post e _ hbad acc tr
    simp [execJobsGo, hbad]
  | cons f rest ih =>
    intro fbad post e h hbad acc tr
    obtain ⟨v, hv⟩ := h f (List.mem_cons_self f rest)
    have := ih fbad post e (fun g hg => h g (List.mem_cons_of_mem f hg)) hbad
      (deepMerge acc v) (tr ++ [Event.call f])
    simp [execJobsGo, hv, this]

theorem shouldStartGo_all_true (penv : PredEnv) (st : ProcState) :
    ∀ (l : List Nat),
      (∀ p ∈ l, penv p st = Except.ok true) →
      ∀ (tr : List Event),
        shouldStartGo penv st l tr = (tr ++ l.map Event.call, Except.ok true) := by
  intro l
  induction l with
  | nil =>
    intro _ tr
    simp [shouldStartGo]
  | cons p rest ih =>
    intro h tr
    have hp := h p (List.mem_cons_self p rest)
    have := ih (fun q hq => h q (List.mem_cons_of_mem p hq)) (tr ++ [Event.call p])
    simp [shouldStartGo, hp, this]

theorem shouldStartGo_false (penv : PredEnv) (st : ProcState) :
    ∀ (pre : List Nat) (pbad : Nat) (post : List Nat),
      (∀ p ∈ pre, penv p st = Except.ok true) →
      penv pbad st = Except.ok false →
      ∀ (tr : List Event),
        shouldStartGo penv st (pre ++ pbad :: post) tr =
          (tr ++ pre.map Event.call ++ [Event.call pbad], Except.ok false) := by
  intro pre
  induction pre with
  | nil =>
    intro pbad post _ hbad tr
    simp [shouldStartGo, hbad]
  | cons p rest ih =>
    intro pbad post h hbad tr
    have hp := h p (List.mem_cons_self p rest)
    have := ih pbad post (fun q hq => h q (List.mem_cons_of_mem p hq)) hbad
      (tr ++ [Event.call p])
    simp [shouldStartGo, hp, this]

theorem shouldStart_empty (penv : PredEnv) (st : ProcState)
    (h : st.predicateFns = []) : shouldStart penv st = ([], Except.ok true) := by
  simp [shouldStart, fnsList, h, shouldStartGo]

theorem execAsyncErrorFnsGo_all_ok (eenv : ErrEnv) (st : ProcState) (e : JsValue) :
    ∀ (l : List Nat),
      (∀ f ∈ l, ∃ v, eenv f st e = Except.ok v) →
      ∀ (tr : List Event),
        execAsyncErrorFnsGo eenv st e l tr = tr ++ l.map (fun f => Event.callErr f e) := by
  intro l
  induction l with
  | nil =>
    intro _ tr
    simp [execAsyncErrorFnsGo]
  | cons f rest ih =>
    intro h tr
    obtain ⟨v, hv⟩ := h f (List.mem_cons_self f rest)
    have := ih (fun g hg => h g (List.mem_cons_of_mem f hg)) (tr ++ [Event.callErr f e])
    simp [execAsyncErrorFnsGo, hv, this]

/-! ### Frame lemmas for `shouldDeleteFunctions` and the shape of `start` -/

theorem shouldDeleteFunctions_error (s : ProcState) :
    (shouldDeleteFunctions s).error = s.error := by
  unfold shouldDeleteFunctions
  split <;> rfl

theorem shouldDeleteFunctions_result (s : ProcState) :
    (shouldDeleteFunctions s).result = s.result := by
  unfold shouldDeleteFunctions
  split <;> rfl

theorem shouldDeleteFunctions_metadata (s : ProcState) :
    (shouldDeleteFunctions s).metadata = s.metadata := by
  unfold shouldDeleteFunctions
  split <;> rfl

theorem shouldDeleteFunctions_identifiers (s : ProcState) :
    (shouldDeleteFunctions s).identifiers = s.identifiers := by
  unfold shouldDeleteFunctions
  split <;> rfl

theorem shouldDeleteFunctions_options (s : ProcState) :
    (shouldDeleteFunctions s).options = s.options := by
  unfold shouldDeleteFunctions
  split <;> rfl

theorem shouldDeleteFunctions_fns (s : ProcState) :
    (shouldDeleteFunctions s).jobs =
      (if s.options.deleteFunctionsWhenJobsStarted then [] else s.jobs) ∧
    (shouldDeleteFunctions s).onStartFns =
      (if s.options.deleteFunctionsWhenJobsStarted then [] else s.onStartFns) ∧
    (shouldDeleteFunctions s).onSuccessFns =
      (if s.options.deleteFunctionsWhenJobsStarted then [] else s.onSuccessFns) ∧
    (shouldDeleteFunctions s).onErrorFns =
      (if s.options.deleteFunctionsWhenJobsStarted then [] else s.onErrorFns) ∧
    (shouldDeleteFunctions s).predicateFns =
      (if s.options.deleteFunctionsWhenJobsStarted then [] else s.predicateFns) := by
  unfold shouldDeleteFunctions
  by_cases h : s.options.deleteFunctionsWhenJobsStarted <;> simp [h]

theorem runPath_fst (env : JobEnv) (s0 : ProcState) (trp : List Event) :
    ∃ res, (runPath env s0 trp).1 = { s0 with result := res } := by
  unfold runPath
  rcases h1 : execJobs env s0 s0.onStartFns with ⟨tr1, r1⟩
  cases r1 with
  | error e => exact ⟨s0.result, by simp [h1]⟩
  | ok v1 =>
    rcases h2 : execJobs env s0 s0.jobs with ⟨tr2, r2⟩
    cases r2 with
    | error e => exact ⟨s0.result, by simp [h1, h2]⟩
    | ok r =>
      rcases h3 : execJobs env { s0 with result := r } s0.onSuccessFns with ⟨tr3, r3⟩
      cases r3 with
      | error e => exact ⟨r, by simp [h1, h2, h3]⟩
      | ok v3 => exact ⟨r, by simp [h1, h2, h3]⟩

theorem tryCatch_fst (eenv : ErrEnv) (step : ProcState × List Event × Option JsValue) :
    (tryCatch eenv step).1 =
      shouldDeleteFunctions
        (match step.2.2 with
         | none => step.1
         | some e => { step.1 with error := e, result := JsValue.null }) := by
  rcases step with ⟨s1, tr, e⟩
  cases e <;> rfl

theorem startTryBlock_fst (env : JobEnv) (penv : PredEnv) (s0 : ProcState) :
    ∃ res, (startTryBlock env penv s0).1 = { s0 with result := res } := by
  unfold startTryBlock
  by_cases hp : s0.predicateFns.isEmpty
  · rw [if_pos hp]
    exact runPath_fst env s0 []
  · rw [if_neg hp]
    rcases hss : shouldStart penv s0 with ⟨trp, r⟩
    cases r with
    | error e => exact ⟨s0.result, rfl⟩
    | ok b =>
      cases b with
      | true => exact runPath_fst env s0 trp
      | false =>
        rcases hex : execJobs env s0 s0.onSuccessFns with ⟨tr, r2⟩
        cases r2 with
        | ok v => exact ⟨v, by simp [hex]⟩
        | error e => exact ⟨s0.result, by simp [hex]⟩

theorem startAfterEntry_fst_shape (env : JobEnv) (penv : PredEnv) (eenv : ErrEnv)
    (s0 : ProcState) :
    ∃ ev res, (startAfterEntry env penv eenv s0).1 =
      shouldDeleteFunctions { s0 with error := ev, result := res } := by
  obtain ⟨res, hres⟩ := startTryBlock_fst env penv s0
  unfold startAfterEntry
  rw [tryCatch_fst]
  rcases h22 : (startTryBlock env penv s0).2.2 with _ | ex
  · exact ⟨s0.error, res, by rw [hres]⟩
  · exact ⟨ex, JsValue.null, by rw [hres]⟩

theorem start_shape (env : JobEnv) (penv : PredEnv) (eenv : ErrEnv) (s : ProcState) :
    ∃ ev res, (start env penv eenv s).1 =
      shouldDeleteFunctions { s with error := ev, result := res } := by
  obtain ⟨ev, res, h⟩ := startAfterEntry_fst_shape env penv eenv { s with error := JsValue.null }
  exact ⟨ev, res, h⟩

theorem startAfterEntry_run (env : JobEnv) (penv : PredEnv) (eenv : ErrEnv)
    (s0 : ProcState) (hss : (shouldStart penv s0).2 = Except.ok true) :
    startAfterEntry env penv eenv s0 =
      tryCatch eenv (runPath env s0 (shouldStart penv s0).1) := by
  unfold startAfterEntry startTryBlock
  by_cases hp : s0.predicateFns.isEmpty
  · rw [if_pos hp, shouldStart_empty penv s0 (List.isEmpty_iff.mp hp)]
  · rw [if_neg hp]
    rcases h : shouldStart penv s0 with ⟨trp, r⟩
    rw [h] at hss
    cases r with
    | error e => simp at hss
    | ok b =>
      cases b with
      | false => simp at hss
      | true => rfl

theorem startAfterEntry_skip (env : JobEnv) (penv : PredEnv) (eenv : ErrEnv)
    (s0 : ProcState) (hne : ¬ s0.predicateFns.isEmpty)
    (hss : (shouldStart penv s0).2 = Except.ok false) :
    startAfterEntry env penv eenv s0 =
      tryCatch eenv
        (match execJobs env s0 s0.onSuccessFns with
         | (tr, Except.ok r) => ({ s0 with result := r }, (shouldStart penv s0).1 ++ tr, none)
         | (tr, Except.error e) => (s0, (shouldStart penv s0).1 ++ tr, some e)) := by
  unfold startAfterEntry startTryBlock
  rw [if_neg hne]
  rcases h : shouldStart penv s0 with ⟨trp, r⟩
  rw [h] at hss
  cases r with
  | error e => simp at hss
  | ok b =>
    cases b with
    | true => simp at hss
    | false => rfl

theorem runPath_returns (env : JobEnv) (s0 : ProcState) (trp : List Event)
    (rs : List JsValue)
    (hstart : ∀ f ∈ fnsList s0.onStartFns, ∃ v, env f s0 = Except.ok v)
    (hjobs : List.Forall₂ (fun f r => env f s0 = Except.ok r) (fnsList s0.jobs) rs)
    (hsucc : ∀ f ∈ fnsList s0.onSuccessFns,
      ∃ v, env f { s0 with result := mergeAll rs } = Except.ok v) :
    runPath env s0 trp =
      ({ s0 with result := mergeAll rs },
       trp ++ (fnsList s0.onStartFns).map Event.call
           ++ ((fnsList s0.jobs).map Event.call
           ++ (fnsList s0.onSuccessFns).map Event.call), none) := by
  obtain ⟨r1, h1⟩ := execJobsGo_all_ok env s0 (fnsList s0.onStartFns) JsValue.null [] hstart
  have h2 := execJobsGo_returns env s0 (fnsList s0.jobs) rs hjobs JsValue.null []
  obtain ⟨r3, h3⟩ := execJobsGo_all_ok env { s0 with result := mergeAll rs }
    (fnsList s0.onSuccessFns) JsValue.null [] hsucc
  have e1 : execJobs env s0 s0.onStartFns =
      ((fnsList s0.onStartFns).map Event.call, Except.ok r1) := by
    simpa [execJobs] using h1
  have e2 : execJobs env s0 s0.jobs =
      ((fnsList s0.jobs).map Event.call, Except.ok (mergeAll rs)) := by
    simpa [execJobs, mergeAll] using h2
  have e3 : execJobs env { s0 with result := mergeAll rs } s0.onSuccessFns =
      ((fnsList s0.onSuccessFns).map Event.call, Except.ok r3) := by
    simpa [execJobs] using h3
  unfold runPath
  simp [e1, e2, e3]

theorem runPath_all_ok (env : JobEnv) (s0 : ProcState) (trp : List Event)
    (hstart : ∀ f ∈ fnsList s0.onStartFns, ∃ v, env f s0 = Except.ok v)
    (hjobs : ∀ f ∈ fnsList s0.jobs, ∃ v, env f s0 = Except.ok v)
    (hsucc : ∀ r, ∀ f ∈ fnsList s0.onSuccessFns,
      ∃ v, env f { s0 with result := r } = Except.ok v) :
    ∃ res, runPath env s0 trp =
      ({ s0 with result := res },
       trp ++ (fnsList s0.onStartFns).map Event.call
           ++ ((fnsList s0.jobs).map Event.call
           ++ (fnsList s0.onSuccessFns).map Event.call), none) := by
  obtain ⟨r1, h1⟩ := execJobsGo_all_ok env s0 (fnsList s0.onStartFns) JsValue.null [] hstart
  obtain ⟨r2, h2⟩ := execJobsGo_all_ok env s0 (fnsList s0.jobs) JsValue.null [] hjobs
  obtain ⟨r3, h3⟩ := execJobsGo_all_ok env { s0 with result := r2 }
    (fnsList s0.onSuccessFns) JsValue.null [] (hsucc r2)
  have e1 : execJobs env s0 s0.onStartFns =
      ((fnsList s0.onStartFns).map Event.call, Except.ok r1) := by
    simpa [execJobs] using h1
  have e2 : execJobs env s0 s0.jobs =
      ((fnsList s0.jobs).map Event.call, Except.ok r2) := by
    simpa [execJobs] using h2
  have e3 : execJobs env { s0 with result := r2 } s0.onSuccessFns =
      ((fnsList s0.onSuccessFns).map Event.call, Except.ok r3) := by
    simpa [execJobs] using h3
  refine ⟨r2, ?_⟩
  unfold runPath
  simp [e1, e2, e3]

theorem runPath_throws_in_jobs (env : JobEnv) (s0 : ProcState) (trp : List Event)
    (pre post : List Nat) (fbad : Nat) (e : JsValue)
    (hstart : ∀ f ∈ fnsList s0.onStartFns, ∃ v, env f s0 = Except.ok v)
    (hsplit : fnsList s0.jobs = pre ++ fbad :: post)
    (hpre : ∀ f ∈ pre, ∃ v, env f s0 = Except.ok v)
    (hbad : env fbad s0 = Except.error e) :
    runPath env s0 trp =
      (s0, trp ++ (fnsList s0.onStartFns).map Event.call
          ++ (pre.map Event.call ++ [Event.call fbad]), some e) := by
  obtain ⟨r1, h1⟩ := execJobsGo_all_ok env s0 (fnsList s0.onStartFns) JsValue.null [] hstart
  have h2 := execJobsGo_throws env s0 pre fbad post e hpre hbad JsValue.null []
  have e1 : execJobs env s0 s0.onStartFns =
      ((fnsList s0.onStartFns).map Event.call, Except.ok r1) := by
    simpa [execJobs] using h1
  have e2 : execJobs env s0 s0.jobs =
      (pre.map Event.call ++ [Event.call fbad], Except.error e) := by
    rw [execJobs, hsplit]
    simpa using h2
  unfold runPath
  simp [e1, e2]

theorem start_metadata (env : JobEnv) (penv : PredEnv) (eenv : ErrEnv) (s : ProcState) :
    (start env penv eenv s).1.metadata = s.metadata := by
  obtain ⟨ev, res, h⟩ := start_shape env penv eenv s
  rw [h, shouldDeleteFunctions_metadata]

theorem start_identifiers (env : JobEnv) (penv : PredEnv) (eenv : ErrEnv) (s : ProcState) :
    (start env penv eenv s).1.identifiers = s.identifiers := by
  obtain ⟨ev, res, h⟩ := start_shape env penv eenv s
  rw [h, shouldDeleteFunctions_identifiers]

theorem start_options (env : JobEnv) (penv : PredEnv) (eenv : ErrEnv) (s : ProcState) :
    (start env penv eenv s).1.options = s.options := by
  obtain ⟨ev, res, h⟩ := start_shape env penv eenv s
  rw [h, shouldDeleteFunctions_options]

/-! ### Slot-map registration lemmas -/

theorem mapSet_mapSet (m : SlotMap) (k : String) (v1 v2 : FnSet) :
    mapSet (mapSet m k v1) k v2 = mapSet m k v2 := by
  induction m with
  | nil => simp [mapSet]
  | cons kv rest ih =>
    rcases kv with ⟨k0, v0⟩
    by_cases h : k0 = k
    · simp [mapSet, h]
    · simp [mapSet, h, ih]

theorem mapSet_fresh (m : SlotMap) (k : String) (v : FnSet)
    (h : ∀ kv ∈ m, kv.1 ≠ k) : mapSet m k v = m ++ [(k, v)] := by
  induction m with
  | nil => rfl
  | cons kv rest ih =>
    rcases kv with ⟨k0, v0⟩
    have hk : k0 ≠ k := h (k0, v0) (List.mem_cons_self _ _)
    simp [mapSet, hk, ih (fun kv hkv => h kv (List.mem_cons_of_mem _ hkv))]

/-- Helper: the effect of `start` on the five function-slot maps is exactly
the cleanup decision of `shouldDeleteFunctions`. -/
theorem start_fns_fields (env : JobEnv) (penv : PredEnv) (eenv : ErrEnv) (s : ProcState) :
    (start env penv eenv s).1.jobs =
      (if s.options.deleteFunctionsWhenJobsStarted then [] else s.jobs) ∧
    (start env penv eenv s).1.onStartFns =
      (if s.options.deleteFunctionsWhenJobsStarted then [] else s.onStartFns) ∧
    (start env penv eenv s).1.onSuccessFns =
      (if s.options.deleteFunctionsWhenJobsStarted then [] else s.onSuccessFns) ∧
    (start env penv eenv s).1.onErrorFns =
      (if s.options.deleteFunctionsWhenJobsStarted then [] else s.onErrorFns) ∧
    (start env penv eenv s).1.predicateFns =
      (if s.options.deleteFunctionsWhenJobsStarted then [] else s.predicateFns) := by
  obtain ⟨ev, res, h⟩ := start_shape env penv eenv s
  rw [h]
  have h5 := shouldDeleteFunctions_fns { s with error := ev, result := res }
  simpa using h5

/-! ### Claim theorems -/

/-- C1 (amended): starting from a cleared registry, two `getOrCreate` calls
return the same instance exactly when their computed identity keys (primary
identifier joined with the `/`-joined, falsy-filtered sub-identifier list)
are equal — in particular equal `(p, subs)` arguments always alias, and
`('X', ['a'])` versus `('X', ['b'])` are distinct — and when the keys are
equal the second call leaves the registry unchanged, so exactly one instance
exists per distinct identity key. -/
theorem getOrCreate_identity (p1 p2 : String) (s1 s2 : Option (List String)) :
    ((getOrCreate (getOrCreate Registry.empty p1 s1).1 p2 s2).2 =
        (getOrCreate Registry.empty p1 s1).2 ↔
      identKey p1 s1 = identKey p2 s2) ∧
    (identKey p1 s1 = identKey p2 s2 →
      (getOrCreate (getOrCreate Registry.empty p1 s1).1 p2 s2).1 =
        (getOrCreate Registry.empty p1 s1).1) := by
  by_cases h : identKey p1 s1 = identKey p2 s2
  · constructor
    · simp [getOrCreate, Registry.empty, lookupInstance, h]
    · intro _
      simp [getOrCreate, Registry.empty, lookupInstance, h]
  · constructor
    · simp [getOrCreate, Registry.empty, lookupInstance, h]
    · intro hk
      exact absurd hk h

/-- C1 witness: with equal keys — `getOrCreate('X', ['a'])` twice — the same
instance is returned and the registry is unchanged by the second call. -/
theorem getOrCreate_identity_witness :
    (getOrCreate (getOrCreate Registry.empty ("X") (some ["a"])).1 ("X")
        (some ["a"])).2 =
      (getOrCreate Registry.empty ("X") (some ["a"])).2 ∧
    (getOrCreate (getOrCreate Registry.empty ("X") (some ["a"])).1 ("X")
        (some ["a"])).1 =
      (getOrCreate Registry.empty ("X") (some ["a"])).1 := by
  have h := getOrCreate_identity ("X") ("X") (some ["a"]) (some ["a"])
  exact ⟨h.1.mpr rfl, h.2 rfl⟩

/-- C1 counterexample: the claim says different sub-identifier lists yield
distinct instances, but `getOrCreate('X', ['a','b'])` and
`getOrCreate('X', ['a/b'])` — different lists — compute the same `/`-joined
key `X/a/b` and return the very same instance. -/
theorem getOrCreate_collision_counterexample :
    (some ["a", "b"] : Option (List String)) ≠ some ["a/b"] ∧
    (getOrCreate (getOrCreate Registry.empty ("X") (some ["a", "b"])).1 ("X")
        (some ["a/b"])).2 =
      (getOrCreate Registry.empty ("X") (some ["a", "b"])).2 := by
  constructor
  · decide
  · rfl

/-- C5: for every instance state and every combination of registered jobs,
callbacks and predicates — including behaviours that throw or reject, since
`env`, `penv` and `eenv` are universally quantified — `start()` returns
normally (the embedding is a total function: the `catch` handles every thrown
value), and the state it resolves with is the same instance: its immutable
identifiers are preserved.  Failure is observable only through the `error`
field and the traced onError invocations. -/
theorem start_always_settles (env : JobEnv) (penv : PredEnv) (eenv : ErrEnv)
    (s : ProcState) :
    ∃ s2 tr, start env penv eenv s = (s2, tr) ∧ s2.identifiers = s.identifiers :=
  ⟨(start env penv eenv s).1, (start env penv eenv s).2, rfl,
    start_identifiers env penv eenv s⟩

/-- C7: every registration operation (`do`, `if`, `onStart`, `onSuccess`,
`onError`) is last-write-wins per registration name — registering twice under
one name is the same as registering the second set only — while registering
under a name not yet present in that role's slot map appends a new
independent entry alongside the existing ones, for each of the five
operations. -/
theorem registration_last_write_wins (s : ProcState) (l1 l2 : List Nat) (n : String) :
    doRegister (doRegister s l1 n) l2 n = doRegister s l2 n ∧
    ifRegister (ifRegister s l1 n) l2 n = ifRegister s l2 n ∧
    onStartRegister (onStartRegister s l1 n) l2 n = onStartRegister s l2 n ∧
    onSuccessRegister (onSuccessRegister s l1 n) l2 n = onSuccessRegister s l2 n ∧
    onErrorRegister (onErrorRegister s l1 n) l2 n = onErrorRegister s l2 n ∧
    ((∀ kv ∈ s.jobs, kv.1 ≠ n) →
      (doRegister s l1 n).jobs = s.jobs ++ [(n, dedupFns l1)]) ∧
    ((∀ kv ∈ s.predicateFns, kv.1 ≠ n) →
      (ifRegister s l1 n).predicateFns = s.predicateFns ++ [(n, dedupFns l1)]) ∧
    ((∀ kv ∈ s.onStartFns, kv.1 ≠ n) →
      (onStartRegister s l1 n).onStartFns = s.onStartFns ++ [(n, dedupFns l1)]) ∧
    ((∀ kv ∈ s.onSuccessFns, kv.1 ≠ n) →
      (onSuccessRegister s l1 n).onSuccessFns = s.onSuccessFns ++ [(n, dedupFns l1)]) ∧
    ((∀ kv ∈ s.onErrorFns, kv.1 ≠ n) →
      (onErrorRegister s l1 n).onErrorFns = s.onErrorFns ++ [(n, dedupFns l1)]) := by
  refine ⟨?_, ?_, ?_, ?_, ?_, ?_, ?_, ?_, ?_, ?_⟩
  · simp [doRegister, mapSet_mapSet]
  · simp [ifRegister, mapSet_mapSet]
  · simp [onStartRegister, mapSet_mapSet]
  · simp [onSuccessRegister, mapSet_mapSet]
  · simp [onErrorRegister, mapSet_mapSet]
  · intro h
    simp [doRegister, mapSet_fresh _ _ _ h]
  · intro h
    simp [ifRegister, mapSet_fresh _ _ _ h]
  · intro h
    simp [onStartRegister, mapSet_fresh _ _ _ h]
  · intro h
    simp [onSuccessRegister, mapSet_fresh _ _ _ h]
  · intro h
    simp [onErrorRegister, mapSet_fresh _ _ _ h]

/-- C7 witness: `onStart(f1)` then `onStart(f2)` under the default name
leaves exactly one entry containing only `f2`, and a first registration under
a fresh name appends a single new entry for each of the five operations. -/
theorem registration_last_write_wins_witness :
    (onStartRegister (onStartRegister emptyState [1] ("defaultOnStart")) [2]
        ("defaultOnStart")).onStartFns = [(("defaultOnStart" : String), [2])] ∧
    (doRegister emptyState [1] ("defaultJobs")).jobs =
      [(("defaultJobs" : String), [1])] ∧
    (ifRegister emptyState [1] ("defaultPredicate")).predicateFns =
      [(("defaultPredicate" : String), [1])] ∧
    (onStartRegister emptyState [1] ("defaultOnStart")).onStartFns =
      [(("defaultOnStart" : String), [1])] ∧
    (onSuccessRegister emptyState [1] ("defaultOnSuccess")).onSuccessFns =
      [(("defaultOnSuccess" : String), [1])] ∧
    (onErrorRegister emptyState [1] ("defaultOnError")).onErrorFns =
      [(("defaultOnError" : String), [1])] := by
  refine ⟨?_, ?_, ?_, ?_, ?_, ?_⟩
  · rw [(registration_last_write_wins emptyState [1] [2] ("defaultOnStart")).2.2.1]
    rfl
  · rw [(registration_last_write_wins emptyState [1] [2]
      ("defaultJobs")).2.2.2.2.2.1 (by simp [emptyState])]
    rfl
  · rw [(registration_last_write_wins emptyState [1] [2]
      ("defaultPredicate")).2.2.2.2.2.2.1 (by simp [emptyState])]
    rfl
  · rw [(registration_last_write_wins emptyState [1] [2]
      ("defaultOnStart")).2.2.2.2.2.2.2.1 (by simp [emptyState])]
    rfl
  · rw [(registration_last_write_wins emptyState [1] [2]
      ("defaultOnSuccess")).2.2.2.2.2.2.2.2.1 (by simp [emptyState])]
    rfl
  · rw [(registration_last_write_wins emptyState [1] [2]
      ("defaultOnError")).2.2.2.2.2.2.2.2.2 (by simp [emptyState])]
    rfl

/-- C8 (corrected, counterexample): the claim says `lastResult` is reset to
null at the beginning of `start()`, before any callable runs — but a job that
reads the instance's result (`envReflect`) during `start()` observes the
previous result `a: 1`, not null: the run finishes with that old object as
its merged result. -/
theorem start_entry_reset_counterexample :
    (start envReflect penvTrue eenvNoop (prevState objA)).1.result = objA ∧
    objA ≠ JsValue.null := by
  constructor
  · rfl
  · simp [objA]

/-- C8 (amended): at the beginning of every `start()` only `lastError` is
reset to null — `start` behaves identically on a state whose error is already
cleared — while `lastResult` is not reset at entry: a job reading the
instance during `start()` observes the previous result `v` (for every `v`),
which then flows into the new merged result. -/
theorem start_entry_resets_error_only (env : JobEnv) (penv : PredEnv) (eenv : ErrEnv)
    (s : ProcState) (v : JsValue) :
    start env penv eenv s = start env penv eenv { s with error := JsValue.null } ∧
    (start envReflect penvTrue eenvNoop (prevState v)).1.result = v := by
  constructor
  · rfl
  · simp [start, startAfterEntry, startTryBlock, runPath, execJobs, fnsList,
      prevState, emptyState, defaultOptions, execJobsGo, envReflect, tryCatch,
      shouldDeleteFunctions, deepMerge_null_left]

/-- C9: the metadata bag is a frame of every core operation: after any
sequence of core operations (`start` with arbitrary callable behaviours, all
five registration operations, `setOptions`, `shouldDeleteFunctions` —
including the cleanup it performs when `deleteFunctionsWhenJobsStarted` is
set — and `compose`), the metadata contents are exactly what they were
before: the core never reads, writes or clears them. -/
theorem metadata_frame (ops : List CoreOp) (s : ProcState) :
    (applyOps s ops).metadata = s.metadata := by
  induction ops generalizing s with
  | nil => rfl
  | cons op rest ih =>
    rw [applyOps, ih]
    cases op with
    | opStart env penv eenv => exact start_metadata env penv eenv s
    | opDo l n => rfl
    | opIf l n => rfl
    | opOnStart l n => rfl
    | opOnSuccess l n => rfl
    | opOnError l n => rfl
    | opSetOptions o => rfl
    | opShouldDelete => exact shouldDeleteFunctions_metadata s
    | opCompose c => rfl

/-- C2: for every successful `start()` — predicates (if any) all true, and
every onStart and onSuccess callable succeeding — whose jobs return
`r1, ..., rn` in slot-map iteration order, `lastResult` equals the deep-merge
accumulation of `r1..rn`: the accumulation starts from `null`, so the first
result is the initial value and each subsequent result is deep-merged into
it; and the run ends with a null `lastError`. -/
theorem start_result_aggregation (env : JobEnv) (penv : PredEnv) (eenv : ErrEnv)
    (s : ProcState) (rs : List JsValue)
    (hss : (shouldStart penv { s with error := JsValue.null }).2 = Except.ok true)
    (hstart : ∀ f ∈ fnsList s.onStartFns,
      ∃ v, env f { s with error := JsValue.null } = Except.ok v)
    (hjobs : List.Forall₂ (fun f r => env f { s with error := JsValue.null } = Except.ok r)
      (fnsList s.jobs) rs)
    (hsucc : ∀ f ∈ fnsList s.onSuccessFns,
      ∃ v, env f { s with error := JsValue.null, result := mergeAll rs } = Except.ok v) :
    (start env penv eenv s).1.result = mergeAll rs ∧
    (start env penv eenv s).1.error = JsValue.null ∧
    mergeAll rs = (match rs with
      | [] => JsValue.null
      | r :: rest => rest.foldl deepMerge r) := by
  have hrun : start env penv eenv s =
      tryCatch eenv (runPath env { s with error := JsValue.null }
        (shouldStart penv { s with error := JsValue.null }).1) :=
    startAfterEntry_run env penv eenv { s with error := JsValue.null } hss
  have hrp := runPath_returns env { s with error := JsValue.null }
    (shouldStart penv { s with error := JsValue.null }).1 rs hstart hjobs hsucc
  rw [hrun, hrp]
  refine ⟨by simp [tryCatch, shouldDeleteFunctions_result],
          by simp [tryCatch, shouldDeleteFunctions_error], ?_⟩
  cases rs with
  | nil => rfl
  | cons r rest => exact mergeAll_cons r rest

/-- C2 witness: jobs `[() => (a: 1), () => (b: 2)]` registered in one `do()`
give `lastResult = (a: 1, b: 2)`. -/
theorem start_result_aggregation_witness :
    (start envJobs penvTrue eenvNoop sJobsAB).1.result = objAB := by
  have h := start_result_aggregation envJobs penvTrue eenvNoop sJobsAB [objA, objB]
    rfl
    (by intro f hf; simp [sJobsAB, emptyState, fnsList] at hf)
    (List.Forall₂.cons rfl (List.Forall₂.cons rfl List.Forall₂.nil))
    (by intro f hf; simp [sJobsAB, emptyState, fnsList] at hf)
  rw [h.1]
  rfl

/-- C3: when a job throws the value `e` after earlier jobs succeeded (and the
run was not predicate-skipped), no later job and no onSuccess callable is
executed, `lastError` is exactly the thrown value (preserved verbatim),
`lastResult` is null, and every registered onError callable is invoked with
`e` in slot-map iteration order — the trace is exactly the predicate trace,
the onStart calls, the successful earlier jobs, the throwing job, and the
onError calls. -/
theorem start_error_short_circuit (env : JobEnv) (penv : PredEnv) (eenv : ErrEnv)
    (s : ProcState) (pre post : List Nat) (fbad : Nat) (e : JsValue)
    (hss : (shouldStart penv { s with error := JsValue.null }).2 = Except.ok true)
    (hstart : ∀ f ∈ fnsList s.onStartFns,
      ∃ v, env f { s with error := JsValue.null } = Except.ok v)
    (hsplit : fnsList s.jobs = pre ++ fbad :: post)
    (hpre : ∀ f ∈ pre, ∃ v, env f { s with error := JsValue.null } = Except.ok v)
    (hbad : env fbad { s with error := JsValue.null } = Except.error e)
    (herr : ∀ f ∈ fnsList s.onErrorFns,
      ∃ v, eenv f { s with error := e, result := JsValue.null } e = Except.ok v) :
    (start env penv eenv s).1.error = e ∧
    (start env penv eenv s).1.result = JsValue.null ∧
    (start env penv eenv s).2 =
      (shouldStart penv { s with error := JsValue.null }).1
        ++ (fnsList s.onStartFns).map Event.call
        ++ (pre.map Event.call ++ [Event.call fbad])
        ++ (fnsList s.onErrorFns).map (fun f => Event.callErr f e) := by
  have hrun : start env penv eenv s =
      tryCatch eenv (runPath env { s with error := JsValue.null }
        (shouldStart penv { s with error := JsValue.null }).1) :=
    startAfterEntry_run env penv eenv { s with error := JsValue.null } hss
  have hrp := runPath_throws_in_jobs env { s with error := JsValue.null }
    (shouldStart penv { s with error := JsValue.null }).1 pre post fbad e
    hstart hsplit hpre hbad
  have herrall : execAsyncErrorFnsGo eenv { s with error := e, result := JsValue.null } e
      (fnsList s.onErrorFns) [] =
      (fnsList s.onErrorFns).map (fun f => Event.callErr f e) := by
    simpa using
      execAsyncErrorFnsGo_all_ok eenv { s with error := e, result := JsValue.null } e
        (fnsList s.onErrorFns) herr []
  rw [hrun, hrp]
  refine ⟨by simp [tryCatch, shouldDeleteFunctions_error],
          by simp [tryCatch, shouldDeleteFunctions_result], ?_⟩
  simp [tryCatch, execAsyncErrorFns, herrall]

/-- C3 witness: with jobs A (returns `a: 1`), B (throws the string `boom`)
and C, and one onError callable 9: the error is exactly the thrown string,
the result is null, and the trace shows A then B then the onError call — C
and onSuccess never run. -/
theorem start_error_short_circuit_witness :
    (start envJobs penvTrue eenvNoop sABC).1.error = JsValue.str ("boom") ∧
    (start envJobs penvTrue eenvNoop sABC).1.result = JsValue.null ∧
    (start envJobs penvTrue eenvNoop sABC).2 =
      [Event.call 0, Event.call 2, Event.callErr 9 (JsValue.str ("boom"))] := by
  have h := start_error_short_circuit envJobs penvTrue eenvNoop sABC [0] [3] 2
    (JsValue.str ("boom"))
    rfl
    (by intro f hf; simp [sABC, emptyState, fnsList] at hf)
    rfl
    (by
      intro f hf
      simp at hf
      subst hf
      exact ⟨objA, rfl⟩)
    rfl
    (by
      intro f hf
      exact ⟨JsValue.null, rfl⟩)
  refine ⟨h.1, h.2.1, ?_⟩
  rw [h.2.2]
  rfl

/-- C4: when predicates are registered and one of them resolves `false`
after the ones before it (in slot-map then set insertion order) resolved
`true`, the false predicate short-circuits the rest: the trace is exactly the
evaluated predicates followed by all the onSuccess calls — no job, no onStart
and no onError callable runs, and the run ends with a null `lastError`. -/
theorem start_predicate_gating (env : JobEnv) (penv : PredEnv) (eenv : ErrEnv)
    (s : ProcState) (ppre ppost : List Nat) (pbad : Nat)
    (hsplit : fnsList s.predicateFns = ppre ++ pbad :: ppost)
    (hpre : ∀ p ∈ ppre, penv p { s with error := JsValue.null } = Except.ok true)
    (hbad : penv pbad { s with error := JsValue.null } = Except.ok false)
    (hsucc : ∀ f ∈ fnsList s.onSuccessFns,
      ∃ v, env f { s with error := JsValue.null } = Except.ok v) :
    (start env penv eenv s).2 =
      ppre.map Event.call ++ [Event.call pbad]
        ++ (fnsList s.onSuccessFns).map Event.call ∧
    (start env penv eenv s).1.error = JsValue.null := by
  have hssfull : shouldStart penv { s with error := JsValue.null } =
      (ppre.map Event.call ++ [Event.call pbad], Except.ok false) := by
    rw [shouldStart]
    rw [show fnsList ({ s with error := JsValue.null } : ProcState).predicateFns =
        ppre ++ pbad :: ppost from hsplit]
    simpa using
      shouldStartGo_false penv { s with error := JsValue.null } ppre pbad ppost hpre hbad []
  have hne : ¬ ({ s with error := JsValue.null } : ProcState).predicateFns.isEmpty := by
    intro hemp
    have hnil : s.predicateFns = [] := List.isEmpty_iff.mp hemp
    rw [show fnsList s.predicateFns = [] by simp [fnsList, hnil]] at hsplit
    exact absurd hsplit.symm (by simp)
  obtain ⟨r, hr⟩ := execJobsGo_all_ok env { s with error := JsValue.null }
    (fnsList s.onSuccessFns) JsValue.null [] hsucc
  have e3 : execJobs env { s with error := JsValue.null }
      ({ s with error := JsValue.null } : ProcState).onSuccessFns =
      ((fnsList s.onSuccessFns).map Event.call, Except.ok r) := by
    simpa [execJobs] using hr
  have hskip : start env penv eenv s =
      tryCatch eenv
        (match execJobs env { s with error := JsValue.null }
            ({ s with error := JsValue.null } : ProcState).onSuccessFns with
         | (tr, Except.ok r) =>
           ({ s with error := JsValue.null, result := r },
            (shouldStart penv { s with error := JsValue.null }).1 ++ tr, none)
         | (tr, Except.error e) =>
           ({ s with error := JsValue.null },
            (shouldStart penv { s with error := JsValue.null }).1 ++ tr, some e)) :=
    startAfterEntry_skip env penv eenv { s with error := JsValue.null } hne
      (by rw [hssfull])
  rw [hskip, e3, hssfull]
  exact ⟨by simp [tryCatch], by simp [tryCatch, shouldDeleteFunctions_error]⟩

/-- C4 witness: predicates 10 (true) then 11 (false) on an instance with a
job, an onStart, an onSuccess and an onError callable: the trace is exactly
both predicate evaluations followed by the single onSuccess call, and the
error stays null. -/
theorem start_predicate_gating_witness :
    (start envJobs penvGate eenvNoop sGate).2 =
      [Event.call 10, Event.call 11, Event.call 1] ∧
    (start envJobs penvGate eenvNoop sGate).1.error = JsValue.null := by
  have h := start_predicate_gating envJobs penvGate eenvNoop sGate [10] [] 11
    rfl
    (by
      intro p hp
      simp at hp
      subst hp
      rfl)
    rfl
    (by
      intro f hf
      simp [sGate, emptyState, fnsList] at hf
      subst hf
      exact ⟨objB, rfl⟩)
  refine ⟨?_, h.2⟩
  rw [h.1]
  rfl

/-- C10: a `start()` skipped by a false predicate overwrites `lastResult`
with the deep-merge accumulation of the onSuccess callables' return values —
whatever result an earlier successful `start()` had left there — and with no
onSuccess callables registered it is overwritten with null. -/
theorem start_skip_overwrites_result (env : JobEnv) (penv : PredEnv) (eenv : ErrEnv)
    (s : ProcState) (ppre ppost : List Nat) (pbad : Nat) (vs : List JsValue)
    (hsplit : fnsList s.predicateFns = ppre ++ pbad :: ppost)
    (hpre : ∀ p ∈ ppre, penv p { s with error := JsValue.null } = Except.ok true)
    (hbad : penv pbad { s with error := JsValue.null } = Except.ok false)
    (hsucc : List.Forall₂
      (fun f v => env f { s with error := JsValue.null } = Except.ok v)
      (fnsList s.onSuccessFns) vs) :
    (start env penv eenv s).1.result = mergeAll vs ∧
    (fnsList s.onSuccessFns = [] → (start env penv eenv s).1.result = JsValue.null) := by
  have hssfull : shouldStart penv { s with error := JsValue.null } =
      (ppre.map Event.call ++ [Event.call pbad], Except.ok false) := by
    rw [shouldStart]
    rw [show fnsList ({ s with error := JsValue.null } : ProcState).predicateFns =
        ppre ++ pbad :: ppost from hsplit]
    simpa using
      shouldStartGo_false penv { s with error := JsValue.null } ppre pbad ppost hpre hbad []
  have hne : ¬ ({ s with error := JsValue.null } : ProcState).predicateFns.isEmpty := by
    intro hemp
    have hnil : s.predicateFns = [] := List.isEmpty_iff.mp hemp
    rw [show fnsList s.predicateFns = [] by simp [fnsList, hnil]] at hsplit
    exact absurd hsplit.symm (by simp)
  have hr := execJobsGo_returns env { s with error := JsValue.null }
    (fnsList s.onSuccessFns) vs hsucc JsValue.null []
  have e3 : execJobs env { s with error := JsValue.null }
      ({ s with error := JsValue.null } : ProcState).onSuccessFns =
      ((fnsList s.onSuccessFns).map Event.call, Except.ok (mergeAll vs)) := by
    simpa [execJobs, mergeAll] using hr
  have hskip : start env penv eenv s =
      tryCatch eenv
        (match execJobs env { s with error := JsValue.null }
            ({ s with error := JsValue.null } : ProcState).onSuccessFns with
         | (tr, Except.ok r) =>
           ({ s with error := JsValue.null, result := r },
            (shouldStart penv { s with error := JsValue.null }).1 ++ tr, none)
         | (tr, Except.error e) =>
           ({ s with error := JsValue.null },
            (shouldStart penv { s with error := JsValue.null }).1 ++ tr, some e)) :=
    startAfterEntry_skip env penv eenv { s with error := JsValue.null } hne
      (by rw [hssfull])
  constructor
  · rw [hskip, e3]
    simp [tryCatch, shouldDeleteFunctions_result]
  · intro hnone
    rw [hnone] at hsucc
    cases hsucc
    rw [hskip, e3]
    simp [tryCatch, shouldDeleteFunctions_result, mergeAll]

/-- C10 witness: the gated instance still holds the result `a: 1` of an
earlier run; the skipped `start()` overwrites it with the onSuccess
callable's return value `b: 2`. -/
theorem start_skip_overwrites_result_witness :
    sGate.result = objA ∧
    (start envJobs penvGate eenvNoop sGate).1.result = objB := by
  have h := start_skip_overwrites_result envJobs penvGate eenvNoop sGate [10] [] 11 [objB]
    rfl
    (by
      intro p hp
      simp at hp
      subst hp
      rfl)
    rfl
    (List.Forall₂.cons rfl List.Forall₂.nil)
  refine ⟨rfl, ?_⟩
  rw [h.1]
  rfl

/-- C6: after every `start()` — whatever its outcome — each of the five
function-slot maps is empty when `deleteFunctionsWhenJobsStarted` is true and
unchanged when it is false; and with the option false, a previously
registered onSuccess callable is still registered and fires again on the next
`start()` (its invocation appears in the second run's trace whenever that run
proceeds and its callables succeed). -/
theorem start_delete_functions (env : JobEnv) (penv : PredEnv) (eenv : ErrEnv)
    (s : ProcState) :
    (start env penv eenv s).1.jobs =
      (if s.options.deleteFunctionsWhenJobsStarted then [] else s.jobs) ∧
    (start env penv eenv s).1.onStartFns =
      (if s.options.deleteFunctionsWhenJobsStarted then [] else s.onStartFns) ∧
    (start env penv eenv s).1.onSuccessFns =
      (if s.options.deleteFunctionsWhenJobsStarted then [] else s.onSuccessFns) ∧
    (start env penv eenv s).1.onErrorFns =
      (if s.options.deleteFunctionsWhenJobsStarted then [] else s.onErrorFns) ∧
    (start env penv eenv s).1.predicateFns =
      (if s.options.deleteFunctionsWhenJobsStarted then [] else s.predicateFns) ∧
    (s.options.deleteFunctionsWhenJobsStarted = false →
      (∀ f ∈ fnsList s.onStartFns, ∀ st, ∃ v, env f st = Except.ok v) →
      (∀ f ∈ fnsList s.jobs, ∀ st, ∃ v, env f st = Except.ok v) →
      (∀ f ∈ fnsList s.onSuccessFns, ∀ st, ∃ v, env f st = Except.ok v) →
      (shouldStart penv { (start env penv eenv s).1 with error := JsValue.null }).2 =
        Except.ok true →
      ∀ f ∈ fnsList s.onSuccessFns,
        Event.call f ∈ (start env penv eenv (start env penv eenv s).1).2) := by
  obtain ⟨h1, h2, h3, h4, h5⟩ := start_fns_fields env penv eenv s
  refine ⟨h1, h2, h3, h4, h5, ?_⟩
  intro hopt hstart hjobs hsucc hss2 f hf
  rw [hopt] at h1 h2 h3
  simp only [if_false, Bool.false_eq_true, ite_false] at h1 h2 h3
  have hrun : start env penv eenv (start env penv eenv s).1 =
      tryCatch eenv (runPath env
        { (start env penv eenv s).1 with error := JsValue.null }
        (shouldStart penv { (start env penv eenv s).1 with error := JsValue.null }).1) :=
    startAfterEntry_run env penv eenv
      { (start env penv eenv s).1 with error := JsValue.null } hss2
  obtain ⟨res, hrp⟩ := runPath_all_ok env
    { (start env penv eenv s).1 with error := JsValue.null }
    (shouldStart penv { (start env penv eenv s).1 with error := JsValue.null }).1
    (fun g hg => hstart g (by simpa [h2] using hg) _)
    (fun g hg => hjobs g (by simpa [h1] using hg) _)
    (fun r g hg => hsucc g (by simpa [h3] using hg) _)
  rw [hrun, hrp]
  simp only [tryCatch]
  refine List.mem_append.mpr (Or.inr (List.mem_append.mpr (Or.inr ?_)))
  exact List.mem_map.mpr ⟨f, by simpa [h3] using hf, rfl⟩

/-- C6 witness: with the option true the jobs and onSuccess maps are emptied
by `start()`; with it false the onSuccess callable 1 registered before the
first `start()` fires again during the second `start()`. -/
theorem start_delete_functions_witness :
    (start envJobs penvTrue eenvNoop sDelTrue).1.jobs = [] ∧
    (start envJobs penvTrue eenvNoop sDelTrue).1.onSuccessFns = [] ∧
    Event.call 1 ∈ (start envJobs penvTrue eenvNoop
      (start envJobs penvTrue eenvNoop sDelFalse).1).2 := by
  refine ⟨?_, ?_, ?_⟩
  · rw [(start_delete_functions envJobs penvTrue eenvNoop sDelTrue).1]
    rfl
  · rw [(start_delete_functions envJobs penvTrue eenvNoop sDelTrue).2.2.1]
    rfl
  · refine (start_delete_functions envJobs penvTrue eenvNoop sDelFalse).2.2.2.2.2
      rfl
      (by intro g hg st; simp [sDelFalse, emptyState, fnsList] at hg)
      (by intro g hg st; simp [sDelFalse, emptyState, fnsList] at hg)
      (by
        intro g hg st
        simp [sDelFalse, emptyState, fnsList] at hg
        subst hg
        exact ⟨objB, rfl⟩)
      rfl
      1 (by simp [sDelFalse, emptyState, fnsList])

end AsyncProcessModel
